import Mathlib

/-!
Shallow embedding of `examples/random_miqp/run_example.py`.

The script benchmarks two mixed-integer QP backends on randomly generated
problem instances.  All randomness flows through numpy's global generator,
which `np.random.seed(seed)` resets at the start of `solve`; we model the
seeded generator as an infinite tape of rational draws together with a
position.  A uniform draw in `[0, 1)` (numpy's `rand`) is modelled by taking
the fractional part of the current tape cell, so every value of `[0, 1)` is
attainable and nothing outside it is.  The distribution of the draws and the
sparsity pattern of `scipy.sparse.random` matrices are abstracted: a sampled
matrix is simply a matrix of consumed tape cells.  Machine floats are
modelled as rationals.
-/

open Matrix

/-- The numpy global random generator after seeding: an infinite tape of
rational draws (`stream`) and the current read position. -/
structure RNG where
  stream : Nat → ℚ
  pos : Nat

/-- Consume one raw draw from the tape. -/
def RNG.next (g : RNG) : ℚ × RNG := (g.stream g.pos, ⟨g.stream, g.pos + 1⟩)

/-- A uniform draw in `[0, 1)` (numpy `rand`): the fractional part of a raw
tape value. -/
def unitOf (x : ℚ) : ℚ := x - (x.floor : ℚ)

/-- Consume `k` raw draws (models `numpy.random.randn(k)`; the normal
distribution itself is abstracted into the tape). -/
def drawList : Nat → RNG → List ℚ × RNG
  | 0, g => ([], g)
  | k + 1, g =>
    let (r, g1) := g.next
    let (rest, g2) := drawList k g1
    (r :: rest, g2)

/-- Consume `k` uniform draws in `[0, 1)` (models `numpy.random.rand(k)`). -/
def drawUnitList (k : Nat) (g : RNG) : List ℚ × RNG :=
  let (xs, g1) := drawList k g
  (xs.map unitOf, g1)

/-- Consume `rows * cols` draws and return them as a matrix (models
`scipy.sparse.random(rows, cols, density)`; the sparsity pattern induced by
`density` is abstracted, the argument is kept for signature fidelity). -/
def drawMatrix (rows cols : Nat) (_density : ℚ) (g : RNG) :
    Matrix (Fin rows) (Fin cols) ℚ × RNG :=
  (Matrix.of fun i j => g.stream (g.pos + (i.val * cols + j.val)),
   ⟨g.stream, g.pos + rows * cols⟩)

/-- Consume `m` rows of `n` draws each, as a list of rows (the constraint
matrix `A = scipy.sparse.random(m, n, density)` viewed row-wise). -/
def drawRows : Nat → Nat → RNG → List (List ℚ) × RNG
  | 0, _, g => ([], g)
  | k + 1, n, g =>
    let (row, g1) := drawList n g
    let (rest, g2) := drawRows k n g1
    (row :: rest, g2)

/-- Pick `k` elements without replacement from `pool`, each step choosing a
position from one uniform draw (the selection procedure behind
`np.random.choice(arange(0, n), p, replace=False)`; the concrete selection
law is abstracted into the tape, only the without-replacement structure is
kept). -/
def pickLoop : List Nat → Nat → RNG → List Nat × RNG
  | _, 0, g => ([], g)
  | pool, k + 1, g =>
    let (r, g1) := g.next
    let t := (Int.toNat ⌊unitOf r * pool.length⌋) % pool.length
    let x := pool.getD t 0
    let (rest, g2) := pickLoop (pool.erase x) k g1
    (x :: rest, g2)

/-- Error raised by the generator when its preconditions are violated
(numpy's documented `ValueError` from `np.random.choice`: an empty
population, or a without-replacement sample larger than the population). -/
inductive GenError where
  | invalidParameters
deriving DecidableEq, Repr

/-- Model of line 68, `np.random.choice(np.arange(0, n), p, replace=False)`:
fails when the population is empty (`n = 0`) or when `p > n`; otherwise
returns `p` distinct indices below `n`. -/
def drawIndices (n p : Nat) (g : RNG) : Except GenError (List Nat × RNG) :=
  if n = 0 ∨ n < p then .error .invalidParameters
  else .ok (pickLoop (List.range n) p g)

/-- One randomly generated constrained quadratic program (the tuple
`(P, q, A, l, u, i_idx)` built in lines 68-79). -/
structure ProblemInstance (n : Nat) where
  P : Matrix (Fin n) (Fin n) ℚ
  q : List ℚ
  A : List (List ℚ)
  l : List ℚ
  u : List ℚ
  i_idx : List Nat

/-- The `i`-th unit coordinate row of length `n`. -/
def unitRow (n i : Nat) : List ℚ := (List.range n).map fun j => if j = i then 1 else 0

/-- Modelled from the spec: `miosqp.add_bounds` is code of this repository
that is not under `src/`; the spec states that it augments the constraint
system with two additional rows per restricted index — one enforcing the
lower bound `lb` on that variable and one enforcing the upper bound `ub` —
appended after the existing `m` rows, with the bound values `lb`, `ub`
entered in the corresponding positions of `l` and `u`. -/
def add_bounds (i_idx : List Nat) (lb ub : ℚ) (n : Nat)
    (A : List (List ℚ)) (l u : List ℚ) :
    List (List ℚ) × List ℚ × List ℚ :=
  (A ++ i_idx.flatMap (fun i => [unitRow n i, unitRow n i]),
   l ++ i_idx.flatMap (fun _ => [lb, lb]),
   u ++ i_idx.flatMap (fun _ => [ub, ub]))

/-- Lines 71-79 after the index draw: generate the random matrices, cost
vector and bounds, then enforce the `[0, 1]` variable bounds. -/
def genBody (n m : Nat) (i_idx : List Nat) (density : ℚ) (g : RNG) :
    ProblemInstance n × RNG :=
  let d1 := drawMatrix n n density g
  let P := d1.1.transpose * d1.1
  let d2 := drawList n d1.2
  let d3 := drawRows m n d2.2
  let d4 := drawUnitList m d3.2
  let u := d4.1.map (fun r => 1 + r)
  let d5 := drawUnitList m d4.2
  let l := d5.1.map (fun r => -1 + r)
  let alu := add_bounds i_idx 0 1 n d3.1 l u
  (⟨P, d2.1, alu.1, alu.2.1, alu.2.2, i_idx⟩, d5.2)

/-- The per-repetition instance generator, lines 68-79: draw the restricted
indices, then the random problem data. -/
def generate (n m p : Nat) (density : ℚ) (g : RNG) :
    Except GenError (ProblemInstance n × RNG) :=
  (drawIndices n p g).map fun ig => genBody n m ig.1 density ig.2

/-- Summary statistics of one configuration's samples (lines 125-127). -/
structure Stats3 where
  avg : ℚ
  tmax : ℚ
  tmin : ℚ
deriving DecidableEq, Repr

/-- Error of the aggregation step on an empty sample list (numpy's
`ValueError` from a zero-size reduction in `np.max` / `np.min`). -/
inductive AggError where
  | emptySample
deriving DecidableEq, Repr

/-- Arithmetic mean as `np.mean` computes it (sum over length). -/
def npMean (xs : List ℚ) : ℚ := xs.sum / xs.length

/-- Lines 125-127: reduce one configuration's raw samples to mean, max and
min.  On an empty list `np.mean` evaluates to NaN with only a warning, but
the immediately following `np.max` raises on a zero-size array, so the
aggregation step as a whole fails; we model that failure directly. -/
def aggregate (xs : List ℚ) : Except AggError Stats3 :=
  match xs with
  | [] => .error .emptySample
  | x :: rest => .ok ⟨npMean (x :: rest), rest.foldl max x, rest.foldl min x⟩

/-- Result of a `mathprogbasepy` Gurobi solve call (`res_gurobi`): a status
string and the reported cpu time in seconds. -/
structure GResult where
  status : String
  cputime : ℚ
deriving DecidableEq, Repr

/-- Result of a `miosqp` solve call (`res_miosqp`): a numeric status code,
the total run time, and the time spent in the inner OSQP relaxation
solves. -/
structure MResult where
  status : Nat
  run_time : ℚ
  osqp_solve_time : ℚ
deriving DecidableEq, Repr

/-- Modelled from the spec: `miosqp.MI_SOLVED` is a constant of this
repository that is not under `src/`; it is the status code for a
successfully (optimally) solved problem.  The harness only compares the
returned status against it for equality, so the concrete numeric value is
irrelevant. -/
def MI_SOLVED : Nat := 1

/-- One `import ipdb; ipdb.set_trace()` debugger breakpoint hit during the
sweep, recorded with its configuration index and repetition index. -/
structure DebugEvent where
  cfg : Nat
  rep : Nat
deriving DecidableEq, Repr

/-- Errors that can escape a `solve` call: the `NameError` from the
undefined global `n_prob`, the `IndexError` from indexing past the end of
`n_vec`/`m_vec`/`p_vec`, the generator's `ValueError` (invalid parameters),
the zero-size reduction `ValueError` in the aggregation step, and the
pandas `ValueError` for columns of unequal length. -/
inductive RunError where
  | nameError
  | indexError
  | invalidParameters
  | emptySample
  | valueError
deriving DecidableEq, Repr

/-- One row of the final `timings` table: the configuration `(n, m, p)`,
its primary-time statistics in milliseconds, and — only for the `miosqp`
backend — the secondary OSQP-time percentage statistics. -/
structure Row where
  n : Nat
  m : Nat
  p : Nat
  t : Stats3
  osqp : Option Stats3
deriving DecidableEq, Repr

/-- Everything observable from one `solve` call: the returned table and
the sequence of debugger breakpoints that fired along the way. -/
structure RunOut where
  report : List Row
  events : List DebugEvent
deriving DecidableEq, Repr

/-- The Gurobi backend as the harness sees it: a pure function from the
problem instance to a result (its internals are out of scope). -/
def GBackend : Type := (n : Nat) → ProblemInstance n → GResult

/-- The miosqp backend as the harness sees it. -/
def MBackend : Type := (n : Nat) → ProblemInstance n → MResult

/-- The backend dispatch inside one repetition (lines 81-121): returns the
recorded primary sample, the recorded secondary sample, and the debugger
breakpoints fired.  For the Gurobi branch the sample is `1e3 * cputime`
and a breakpoint fires when the status is not `"optimal"`; for the miosqp
branch the samples are `1e3 * run_time` and `100 * osqp_solve_time /
run_time` and a breakpoint fires when the status is not `MI_SOLVED`; for
any other solver tag the branch is silently skipped and the sample slots
keep their `np.zeros` value. -/
def repStep (solver : String) (gb : GBackend) (mq : MBackend)
    (i j : Nat) {n : Nat} (inst : ProblemInstance n) :
    ℚ × ℚ × List DebugEvent :=
  if solver = "gurobi" then
    let r := gb n inst
    (1000 * r.cputime, 0, if r.status ≠ "optimal" then [⟨i, j⟩] else [])
  else if solver = "miosqp" then
    let r := mq n inst
    (1000 * r.run_time, 100 * (r.osqp_solve_time / r.run_time),
     if r.status ≠ MI_SOLVED then [⟨i, j⟩] else [])
  else (0, 0, [])

/-- Accumulated observables of one configuration's repetition loop: the
primary samples, the secondary samples, the debugger breakpoints, and the
random state after the last repetition. -/
structure RepAcc where
  ss : List ℚ
  oss : List ℚ
  evs : List DebugEvent
  g : RNG

/-- The repetition loop of one configuration (lines 65-121): `count`
repetitions remain, `j` is the current repetition index.  Each repetition
generates a fresh instance from the advancing random state and dispatches
it to the selected backend; the primary and secondary sample lists are
returned in repetition order. -/
def repLoop (solver : String) (gb : GBackend) (mq : MBackend)
    (i n m p : Nat) (density : ℚ) :
    Nat → Nat → RNG → Except GenError RepAcc
  | 0, _, g => .ok ⟨[], [], [], g⟩
  | count + 1, j, g =>
    (generate n m p density g).bind fun ig =>
      (repLoop solver gb mq i n m p density count (j + 1) ig.2).bind fun r =>
        let sv := repStep solver gb mq i j ig.1
        .ok ⟨sv.1 :: r.ss, sv.2.1 :: r.oss, sv.2.2 ++ r.evs, r.g⟩

/-- Accumulated observables of the configuration loop: the per-configuration
primary and secondary statistics, the debugger breakpoints, and the final
random state. -/
structure CfgAcc where
  ts : List Stats3
  toss : List Stats3
  evs : List DebugEvent
  g : RNG

/-- A zero statistics record (the untouched `np.zeros` slots). -/
def zeroStats : Stats3 := ⟨0, 0, 0⟩

/-- The configuration loop (lines 50-132): `count` configurations remain,
`i` is the current configuration index.  Each configuration reads its
dimensions from `n_vec`/`m_vec`/`p_vec` (an out-of-range read is the
Python `IndexError`), runs the repetition loop, and aggregates the
samples; the secondary samples are aggregated only for the `miosqp`
backend. -/
def cfgLoop (solver : String) (gb : GBackend) (mq : MBackend)
    (n_vec m_vec p_vec : List Nat) (rep : Nat) (density : ℚ) :
    Nat → Nat → RNG → Except RunError CfgAcc
  | 0, _, g => .ok ⟨[], [], [], g⟩
  | count + 1, i, g =>
    match n_vec[i]? with
    | none => .error .indexError
    | some n =>
      match m_vec[i]? with
      | none => .error .indexError
      | some m =>
        match p_vec[i]? with
        | none => .error .indexError
        | some p =>
          ((repLoop solver gb mq i n m p density rep 0 g).mapError
              (fun _ => RunError.invalidParameters)).bind fun r =>
            ((aggregate r.ss).mapError (fun _ => RunError.emptySample)).bind fun t =>
              (if solver = "miosqp" then
                  (aggregate r.oss).mapError (fun _ => RunError.emptySample)
                else .ok zeroStats).bind fun tos =>
                (cfgLoop solver gb mq n_vec m_vec p_vec rep density count (i + 1) r.g).bind
                  fun c => .ok ⟨t :: c.ts, tos :: c.toss, r.evs ++ c.evs, c.g⟩

/-- The `solve` function of the script (lines 29-151).  `nprob` is the
module-level global `n_prob`: `none` models the global being undefined
(the call raises `NameError` at the loop header), `some k` models its
value.  `stream` is the numpy global generator tape right after
`np.random.seed(seed)` — a function of the seed alone.  The statistics
arrays are `np.zeros(len(n_vec))` with the slots of visited
configurations overwritten; the final table is built from `n_vec`,
`m_vec`, `p_vec` and those arrays, and pandas rejects columns of unequal
length. -/
def solve (gb : GBackend) (mq : MBackend) (nprob : Option Nat)
    (n_vec m_vec p_vec : List Nat) (rep : Nat) (density : ℚ)
    (stream : Nat → ℚ) (solver : String) : Except RunError RunOut :=
  match nprob with
  | none => .error .nameError
  | some np =>
    (cfgLoop solver gb mq n_vec m_vec p_vec rep density np 0 ⟨stream, 0⟩).bind fun c =>
      if m_vec.length = n_vec.length ∧ p_vec.length = n_vec.length then
        .ok ⟨(List.range n_vec.length).map fun i =>
              { n := n_vec.getD i 0, m := m_vec.getD i 0, p := p_vec.getD i 0,
                t := c.ts.getD i zeroStats,
                osqp := if solver = "miosqp" then some (c.toss.getD i zeroStats)
                        else none },
             c.evs⟩
      else .error .valueError

/-- The sequence of problem instances one repetition loop generates, with
the same threading of the random state as `repLoop` (the backends never
touch the numpy generator). -/
def traceReps (n m p : Nat) (density : ℚ) :
    Nat → RNG → Except GenError (List (Sigma ProblemInstance) × RNG)
  | 0, g => .ok ([], g)
  | count + 1, g => do
    let (inst, g1) ← generate n m p density g
    let (rest, g2) ← traceReps n m p density count g1
    return (⟨n, inst⟩ :: rest, g2)

/-- The sequence of problem instances the whole sweep generates, with the
same threading of the random state as `cfgLoop`. -/
def traceCfgs (n_vec m_vec p_vec : List Nat) (rep : Nat) (density : ℚ) :
    Nat → Nat → RNG → Except RunError (List (Sigma ProblemInstance) × RNG)
  | 0, _, g => .ok ([], g)
  | count + 1, i, g => do
    let some n := n_vec[i]? | throw RunError.indexError
    let some m := m_vec[i]? | throw RunError.indexError
    let some p := p_vec[i]? | throw RunError.indexError
    let (xs, g1) ←
      (traceReps n m p density rep g).mapError (fun _ => RunError.invalidParameters)
    let (ys, g2) ←
      traceCfgs n_vec m_vec p_vec rep density count (i + 1) g1
    return (xs ++ ys, g2)

/-- The sequence of generated problem instances of one `solve` call, as a
function of the sweep parameters and the seeded generator tape. -/
def instanceTrace (nprob : Option Nat) (n_vec m_vec p_vec : List Nat)
    (rep : Nat) (density : ℚ) (stream : Nat → ℚ) :
    Except RunError (List (Sigma ProblemInstance)) := do
  let some np := nprob | throw RunError.nameError
  let (xs, _) ← traceCfgs n_vec m_vec p_vec rep density np 0 ⟨stream, 0⟩
  return xs

/-- The sequence of problem instances one repetition loop generates under
valid parameters (the pure image of `repLoop`'s generation steps), together
with the random state after the last repetition. -/
def genSeq (n m p : Nat) (d : ℚ) : Nat → RNG → List (ProblemInstance n) × RNG
  | 0, g => ([], g)
  | k + 1, g =>
    let ig := genBody n m (pickLoop (List.range n) p g).1 d
      (pickLoop (List.range n) p g).2
    let rest := genSeq n m p d k ig.2
    (ig.1 :: rest.1, rest.2)

/-- The samples one repetition records for its instance, whatever the
backend's status: for Gurobi the primary sample `1e3 * cputime` (line 87),
for miosqp the primary sample `1e3 * run_time` and the secondary OSQP
percentage `100 * osqp_solve_time / run_time` (lines 120-121), and the
untouched zeros for an unrecognized tag. -/
def stepSample (solver : String) (gb : GBackend) (mq : MBackend) {n : Nat}
    (inst : ProblemInstance n) : ℚ × ℚ :=
  if solver = "gurobi" then (1000 * (gb n inst).cputime, 0)
  else if solver = "miosqp" then
    (1000 * (mq n inst).run_time,
     100 * ((mq n inst).osqp_solve_time / (mq n inst).run_time))
  else (0, 0)

/-- Whether the backend's status for this instance triggers the
`ipdb.set_trace()` breakpoint: for Gurobi a status other than `"optimal"`
(line 85), for miosqp a status other than `MI_SOLVED` (line 117); an
unrecognized tag never reaches either breakpoint. -/
def stepBad (solver : String) (gb : GBackend) (mq : MBackend) {n : Nat}
    (inst : ProblemInstance n) : Bool :=
  if solver = "gurobi" then decide ((gb n inst).status ≠ "optimal")
  else if solver = "miosqp" then decide ((mq n inst).status ≠ MI_SOLVED)
  else false

/-- The primary samples of one configuration, one per repetition in
repetition order. -/
def cfgSamples (solver : String) (gb : GBackend) (mq : MBackend)
    (n m p rep : Nat) (d : ℚ) (g : RNG) : List ℚ :=
  (genSeq n m p d rep g).1.map fun inst => (stepSample solver gb mq inst).1

/-- The debugger breakpoints of configuration `i`: exactly one event per
repetition whose backend status is non-optimal, in repetition order. -/
def cfgEvents (solver : String) (gb : GBackend) (mq : MBackend)
    (i n m p rep : Nat) (d : ℚ) (g : RNG) : List DebugEvent :=
  ((List.range' 0 rep).zip (genSeq n m p d rep g).1).flatMap fun jt =>
    if stepBad solver gb mq jt.2 then [⟨i, jt.1⟩] else []

/-- The random state at the start of configuration `i + t`, after the sweep
has processed configurations `i, …, i + t - 1` starting from state `g`. -/
def stateAt (n_vec m_vec p_vec : List Nat) (rep : Nat) (d : ℚ) (i : Nat) (g : RNG) :
    Nat → RNG
  | 0 => g
  | t + 1 =>
    (genSeq (n_vec.getD (i + t) 0) (m_vec.getD (i + t) 0) (p_vec.getD (i + t) 0) d rep
      (stateAt n_vec m_vec p_vec rep d i g t)).2

theorem le_foldl_max (l : List ℚ) : ∀ a : ℚ, a ≤ l.foldl max a := by
  induction l with
  | nil => intro a; exact le_refl a
  | cons b t ih =>
    intro a
    simp only [List.foldl_cons]
    exact le_trans (le_max_left a b) (ih (max a b))

theorem mem_le_foldl_max (l : List ℚ) : ∀ a y : ℚ, y ∈ l → y ≤ l.foldl max a := by
  induction l with
  | nil => intro a y h; cases h
  | cons b t ih =>
    intro a y h
    simp only [List.foldl_cons]
    rcases List.mem_cons.mp h with h1 | h2
    · subst h1
      exact le_trans (le_max_right a y) (le_foldl_max t (max a y))
    · exact ih (max a b) y h2

theorem foldl_min_le (l : List ℚ) : ∀ a : ℚ, l.foldl min a ≤ a := by
  induction l with
  | nil => intro a; exact le_refl a
  | cons b t ih =>
    intro a
    simp only [List.foldl_cons]
    exact le_trans (ih (min a b)) (min_le_left a b)

theorem foldl_min_le_mem (l : List ℚ) : ∀ a y : ℚ, y ∈ l → l.foldl min a ≤ y := by
  induction l with
  | nil => intro a y h; cases h
  | cons b t ih =>
    intro a y h
    simp only [List.foldl_cons]
    rcases List.mem_cons.mp h with h1 | h2
    · subst h1
      exact le_trans (foldl_min_le t (min a y)) (min_le_right a y)
    · exact ih (min a b) y h2

/-- The aggregated statistics of any nonempty sample list satisfy
`min ≤ mean ≤ max`. -/
theorem aggregate_bounds (xs : List ℚ) (s : Stats3) (h : aggregate xs = .ok s) :
    s.tmin ≤ s.avg ∧ s.avg ≤ s.tmax := by
  cases xs with
  | nil => simp [aggregate] at h
  | cons x rest =>
    simp only [aggregate] at h
    injection h with h
    subst h
    constructor
    · show rest.foldl min x ≤ npMean (x :: rest)
      have hlo : ∀ y ∈ x :: rest, rest.foldl min x ≤ y := by
        intro y hy
        rcases List.mem_cons.mp hy with h1 | h2
        · subst h1; exact foldl_min_le rest y
        · exact foldl_min_le_mem rest x y h2
      have hsum := List.card_nsmul_le_sum (x :: rest) (rest.foldl min x) hlo
      have hlen : (0 : ℚ) < ((x :: rest).length : ℚ) := by
        exact_mod_cast Nat.succ_pos rest.length
      rw [npMean, le_div_iff₀ hlen]
      calc rest.foldl min x * ((x :: rest).length : ℚ)
          = ((x :: rest).length : ℚ) * rest.foldl min x := by ring
        _ = (x :: rest).length • rest.foldl min x := by
              rw [nsmul_eq_mul]
        _ ≤ (x :: rest).sum := hsum
    · show npMean (x :: rest) ≤ rest.foldl max x
      have hhi : ∀ y ∈ x :: rest, y ≤ rest.foldl max x := by
        intro y hy
        rcases List.mem_cons.mp hy with h1 | h2
        · subst h1; exact le_foldl_max rest y
        · exact mem_le_foldl_max rest x y h2
      have hsum := List.sum_le_card_nsmul (x :: rest) (rest.foldl max x) hhi
      have hlen : (0 : ℚ) < ((x :: rest).length : ℚ) := by
        exact_mod_cast Nat.succ_pos rest.length
      rw [npMean, div_le_iff₀ hlen]
      calc (x :: rest).sum
          ≤ (x :: rest).length • rest.foldl max x := hsum
        _ = ((x :: rest).length : ℚ) * rest.foldl max x := by
              rw [nsmul_eq_mul]
        _ = rest.foldl max x * ((x :: rest).length : ℚ) := by ring

theorem foldl_max_replicate (x : ℚ) : ∀ k : Nat, (List.replicate k x).foldl max x = x := by
  intro k
  induction k with
  | zero => rfl
  | succ k ih => simpa [List.replicate_succ, List.foldl_cons, max_self] using ih

theorem foldl_min_replicate (x : ℚ) : ∀ k : Nat, (List.replicate k x).foldl min x = x := by
  intro k
  induction k with
  | zero => rfl
  | succ k ih => simpa [List.replicate_succ, List.foldl_cons, min_self] using ih

/-- Aggregating a constant nonempty sample list yields that constant in all
three statistics. -/
theorem aggregate_replicate (k : Nat) (x : ℚ) :
    aggregate (List.replicate (k + 1) x) = .ok ⟨x, x, x⟩ := by
  rw [List.replicate_succ]
  simp only [aggregate, Except.ok.injEq]
  have hsum : (x :: List.replicate k x).sum = ((k : ℚ) + 1) * x := by
    simp [List.sum_replicate, nsmul_eq_mul]
    ring
  have hmean : npMean (x :: List.replicate k x) = x := by
    rw [npMean, hsum]
    have hlen : ((x :: List.replicate k x).length : ℚ) = (k : ℚ) + 1 := by
      simp [List.length_replicate]
    rw [hlen]
    have hne : (k : ℚ) + 1 ≠ 0 := by positivity
    field_simp
  rw [hmean, foldl_max_replicate, foldl_min_replicate]

/-- C5: aggregating an empty sample list fails with the empty-sample error,
and a singleton sample `[t]` aggregates to `min = max = mean = t`.
(Lines 124-127 of the source.) -/
theorem c5_aggregate_empty_and_singleton :
    aggregate ([] : List ℚ) = .error .emptySample
      ∧ ∀ t : ℚ, aggregate [t] = .ok ⟨t, t, t⟩ := by
  constructor
  · rfl
  · intro t
    exact aggregate_replicate 0 t

theorem pickLoop_length : ∀ (k : Nat) (pool : List Nat) (g : RNG),
    (pickLoop pool k g).1.length = k := by
  intro k
  induction k with
  | zero => intro pool g; rfl
  | succ k ih =>
    intro pool g
    simp only [pickLoop, List.length_cons]
    rw [ih]

theorem pickLoop_subset_nodup : ∀ (k : Nat) (pool : List Nat) (g : RNG),
    k ≤ pool.length → pool.Nodup →
    (pickLoop pool k g).1 ⊆ pool ∧ (pickLoop pool k g).1.Nodup := by
  intro k
  induction k with
  | zero =>
    intro pool g _ _
    exact ⟨List.nil_subset pool, List.nodup_nil⟩
  | succ k ih =>
    intro pool g hk hnd
    have hpos : 0 < pool.length := lt_of_lt_of_le (Nat.succ_pos k) hk
    set r := (g.next).1 with hr
    set t := (Int.toNat ⌊unitOf r * pool.length⌋) % pool.length with ht
    have htlt : t < pool.length := Nat.mod_lt _ hpos
    have hx : pool.getD t 0 ∈ pool := by
      rw [List.getD_eq_getElem?_getD, List.getElem?_eq_getElem htlt]
      exact List.getElem_mem htlt
    have herase_len : (pool.erase (pool.getD t 0)).length + 1 = pool.length :=
      List.length_erase_add_one hx
    have hk' : k ≤ (pool.erase (pool.getD t 0)).length := by omega
    have hnd' : (pool.erase (pool.getD t 0)).Nodup := hnd.erase _
    have hsub := ih (pool.erase (pool.getD t 0)) (g.next).2 hk' hnd'
    constructor
    · simp only [pickLoop]
      intro y hy
      rcases List.mem_cons.mp hy with h1 | h2
      · subst h1; exact hx
      · exact List.erase_subset _ _ (hsub.1 h2)
    · simp only [pickLoop]
      refine List.nodup_cons.mpr ⟨?_, hsub.2⟩
      intro hmem
      have := hsub.1 hmem
      rw [List.Nodup.mem_erase_iff hnd] at this
      exact this.1 rfl

theorem drawIndices_ok (n p : Nat) (g : RNG) (h1 : n ≠ 0) (h2 : p ≤ n) :
    drawIndices n p g = .ok (pickLoop (List.range n) p g) := by
  have hcond : ¬(n = 0 ∨ n < p) := by
    intro hor
    rcases hor with h | h
    · exact h1 h
    · exact absurd h (Nat.not_lt.mpr h2)
  simp [drawIndices, hcond]

theorem drawIndices_err (n p : Nat) (g : RNG) (h : n = 0 ∨ n < p) :
    drawIndices n p g = .error .invalidParameters := by
  simp [drawIndices, h]

/-- Structural facts about a successful index draw: it returns exactly `p`
distinct indices, all below `n`. -/
theorem drawIndices_spec (n p : Nat) (g : RNG) (idx : List Nat) (g1 : RNG)
    (h : drawIndices n p g = .ok (idx, g1)) :
    idx.length = p ∧ idx.Nodup ∧ ∀ i ∈ idx, i < n := by
  by_cases hc : n = 0 ∨ n < p
  · rw [drawIndices_err n p g hc] at h
    cases h
  · push_neg at hc
    rw [drawIndices_ok n p g hc.1 hc.2] at h
    injection h with h
    have hidx : idx = (pickLoop (List.range n) p g).1 := by
      rw [h]
    have hlenpool : p ≤ (List.range n).length := by
      simpa [List.length_range] using hc.2
    have hmain := pickLoop_subset_nodup p (List.range n) g hlenpool (List.nodup_range n)
    subst hidx
    refine ⟨pickLoop_length p (List.range n) g, hmain.2, ?_⟩
    intro i hi
    exact List.mem_range.mp (hmain.1 hi)

/-- C4: the generator fails with the invalid-parameters error whenever the
requested restricted-variable count exceeds the number of decision
variables, or the decision-variable dimension is zero (the non-positive
case over the naturals): the without-replacement index draw of line 68
rejects exactly these inputs before any problem data is built. -/
theorem c4_generate_invalid_parameters (n m p : Nat) (density : ℚ) (g : RNG)
    (h : p > n ∨ n = 0) :
    generate n m p density g = .error .invalidParameters := by
  have herr : drawIndices n p g = .error .invalidParameters := by
    apply drawIndices_err
    rcases h with h | h
    · exact Or.inr h
    · exact Or.inl h
  simp [generate, herr, Except.map]

/-- Witness for C4 at the spec's own example `generate(n=5, m=3, p=7)`. -/
theorem c4_witness :
    ((7 : Nat) > 5 ∨ (5 : Nat) = 0)
      ∧ generate 5 3 7 (6/10) ⟨fun _ => 0, 0⟩ = .error .invalidParameters := by
  constructor
  · decide
  · exact c4_generate_invalid_parameters 5 3 7 (6/10) ⟨fun _ => 0, 0⟩ (by decide)

/-- A Gram matrix over the rationals is symmetric and its quadratic form is
nonnegative (positive semidefiniteness). -/
theorem gram_symm_psd {n : Nat} (A : Matrix (Fin n) (Fin n) ℚ) :
    (A.transpose * A).transpose = A.transpose * A
      ∧ ∀ x : Fin n → ℚ, 0 ≤ x ⬝ᵥ (A.transpose * A) *ᵥ x := by
  constructor
  · rw [Matrix.transpose_mul, Matrix.transpose_transpose]
  · intro x
    have h1 : (A.transpose * A) *ᵥ x = A.transpose *ᵥ (A *ᵥ x) :=
      (Matrix.mulVec_mulVec x A.transpose A).symm
    rw [h1, Matrix.dotProduct_mulVec, Matrix.vecMul_transpose]
    have : 0 ≤ (A *ᵥ x) ⬝ᵥ (A *ᵥ x) := by
      unfold Matrix.dotProduct
      exact Finset.sum_nonneg fun i _ => mul_self_nonneg _
    exact this

/-- C7: for every generated instance the cost matrix is the Gram product of
the drawn random matrix with itself (line 72, `P = Pt.T @ Pt`), hence it is
symmetric, its quadratic form is nonnegative (positive semidefinite), and
its construction is total — it never fails. -/
theorem c7_cost_matrix_gram_psd (n m : Nat) (idx : List Nat) (density : ℚ) (g : RNG) :
    ((genBody n m idx density g).1.P
        = (drawMatrix n n density g).1.transpose * (drawMatrix n n density g).1)
      ∧ ((genBody n m idx density g).1.P).transpose = (genBody n m idx density g).1.P
      ∧ ∀ x : Fin n → ℚ, 0 ≤ x ⬝ᵥ ((genBody n m idx density g).1.P) *ᵥ x := by
  have hP : (genBody n m idx density g).1.P
      = (drawMatrix n n density g).1.transpose * (drawMatrix n n density g).1 := rfl
  refine ⟨hP, ?_, ?_⟩
  · rw [hP]
    exact (gram_symm_psd (drawMatrix n n density g).1).1
  · rw [hP]
    exact (gram_symm_psd (drawMatrix n n density g).1).2

theorem drawList_length (k : Nat) : ∀ g : RNG, (drawList k g).1.length = k := by
  induction k with
  | zero => intro g; rfl
  | succ k ih =>
    intro g
    simp only [drawList, List.length_cons]
    rw [ih]

theorem drawUnitList_length (k : Nat) (g : RNG) : (drawUnitList k g).1.length = k := by
  have h : (drawUnitList k g).1 = (drawList k g).1.map unitOf := rfl
  rw [h, List.length_map, drawList_length]

/-- The fractional-part draw agrees with `Int.fract` on the rationals. -/
theorem unitOf_eq_fract (x : ℚ) : unitOf x = Int.fract x := by
  have h : x.floor = ⌊x⌋ := by rw [Rat.floor_def', Rat.floor_def]
  show x - (x.floor : ℚ) = x - (⌊x⌋ : ℚ)
  rw [h]

theorem unitOf_zero : unitOf 0 = 0 := by
  rw [unitOf_eq_fract, Int.fract_zero]

/-- Every value produced by the uniform draw lies in `[0, 1)`. -/
theorem drawUnitList_mem (k : Nat) (g : RNG) :
    ∀ r ∈ (drawUnitList k g).1, 0 ≤ r ∧ r < 1 := by
  intro r hr
  have h : (drawUnitList k g).1 = (drawList k g).1.map unitOf := rfl
  rw [h, List.mem_map] at hr
  obtain ⟨a, _, ha⟩ := hr
  subst ha
  rw [unitOf_eq_fract]
  exact ⟨Int.fract_nonneg a, Int.fract_lt_one a⟩

/-- C9 (amended): every base upper bound lies in the half-open interval
`[1, 2)` and every base lower bound in `[-1, 0)` — `1 + rand()` and
`-1 + rand()` with `rand()` ranging over `[0, 1)` (lines 75-76) — and hence
every base row satisfies `lower < upper`. -/
theorem c9_base_bounds_amended (n m : Nat) (idx : List Nat) (density : ℚ) (g : RNG) :
    (∀ x ∈ ((genBody n m idx density g).1.u).take m, 1 ≤ x ∧ x < 2)
      ∧ (∀ x ∈ ((genBody n m idx density g).1.l).take m, -1 ≤ x ∧ x < 0)
      ∧ ∀ j : Nat, j < m →
        ((genBody n m idx density g).1.l).getD j 0
          < ((genBody n m idx density g).1.u).getD j 0 := by
  set gA := (drawMatrix n n density g).2 with hgA
  set gB := (drawList n gA).2 with hgB
  set gC := (drawRows m n gB).2 with hgC
  set uB := ((drawUnitList m gC).1).map (fun r => (1 : ℚ) + r) with huB
  set gD := (drawUnitList m gC).2 with hgD
  set lB := ((drawUnitList m gD).1).map (fun r => (-1 : ℚ) + r) with hlB
  have hu : (genBody n m idx density g).1.u = uB ++ idx.flatMap (fun _ => [(1 : ℚ), 1]) := rfl
  have hl : (genBody n m idx density g).1.l = lB ++ idx.flatMap (fun _ => [(0 : ℚ), 0]) := rfl
  have huBlen : uB.length = m := by
    rw [huB, List.length_map, drawUnitList_length]
  have hlBlen : lB.length = m := by
    rw [hlB, List.length_map, drawUnitList_length]
  have huBmem : ∀ x ∈ uB, 1 ≤ x ∧ x < 2 := by
    intro x hx
    rw [huB, List.mem_map] at hx
    obtain ⟨r, hr, hxr⟩ := hx
    have hb := drawUnitList_mem m gC r hr
    subst hxr
    constructor
    · linarith [hb.1]
    · linarith [hb.2]
  have hlBmem : ∀ x ∈ lB, -1 ≤ x ∧ x < 0 := by
    intro x hx
    rw [hlB, List.mem_map] at hx
    obtain ⟨r, hr, hxr⟩ := hx
    have hb := drawUnitList_mem m gD r hr
    subst hxr
    constructor
    · linarith [hb.1]
    · linarith [hb.2]
  refine ⟨?_, ?_, ?_⟩
  · intro x hx
    rw [hu, List.take_left' huBlen] at hx
    exact huBmem x hx
  · intro x hx
    rw [hl, List.take_left' hlBlen] at hx
    exact hlBmem x hx
  · intro j hj
    rw [hu, hl]
    rw [List.getD_append _ _ _ _ (by rw [hlBlen]; exact hj)]
    rw [List.getD_append _ _ _ _ (by rw [huBlen]; exact hj)]
    have hjl : j < lB.length := by rw [hlBlen]; exact hj
    have hju : j < uB.length := by rw [huBlen]; exact hj
    have hLl : lB.getD j 0 ∈ lB := by
      rw [List.getD_eq_getElem _ _ hjl]
      exact List.getElem_mem hjl
    have hUu : uB.getD j 0 ∈ uB := by
      rw [List.getD_eq_getElem _ _ hju]
      exact List.getElem_mem hju
    have h1 := hlBmem _ hLl
    have h2 := huBmem _ hUu
    linarith [h1.2, h2.1]

/-- Counterexample to C9 as stated: the spec claims the base upper bounds
lie in the open interval `(1, 2)`, but `rand()` attains `0`, making the
upper bound exactly `1`.  On the tape that is constantly `0` the single
base upper bound of a generated instance is `1`, not strictly above `1`. -/
theorem c9_counterexample :
    ¬ (∀ x ∈ ((genBody 1 1 [] (6/10) ⟨fun _ => 0, 0⟩).1.u).take 1, 1 < x) := by
  intro h
  have hu : ((genBody 1 1 [] (6/10) ⟨fun _ => 0, 0⟩).1.u).take 1 = [1 + unitOf 0] := rfl
  have hx := h (1 + unitOf 0) (by rw [hu]; exact List.mem_singleton_self _)
  rw [unitOf_zero] at hx
  norm_num at hx

/-- Witness instantiating the amended C9 on a concrete generated instance. -/
theorem c9_witness :
    (∀ x ∈ ((genBody 1 1 [] (6/10) ⟨fun _ => 0, 0⟩).1.u).take 1, 1 ≤ x ∧ x < 2)
      ∧ (∀ x ∈ ((genBody 1 1 [] (6/10) ⟨fun _ => 0, 0⟩).1.l).take 1, -1 ≤ x ∧ x < 0)
      ∧ ∀ j : Nat, j < 1 →
        ((genBody 1 1 [] (6/10) ⟨fun _ => 0, 0⟩).1.l).getD j 0
          < ((genBody 1 1 [] (6/10) ⟨fun _ => 0, 0⟩).1.u).getD j 0 :=
  c9_base_bounds_amended 1 1 [] (6/10) ⟨fun _ => 0, 0⟩

theorem drawRows_length (k n : Nat) : ∀ g : RNG, (drawRows k n g).1.length = k := by
  induction k with
  | zero => intro g; rfl
  | succ k ih =>
    intro g
    simp only [drawRows, List.length_cons]
    rw [ih]

theorem unitRow_length (n i : Nat) : (unitRow n i).length = n := by
  simp [unitRow]

theorem unitRow_getD (n i t : Nat) (ht : t < n) :
    (unitRow n i).getD t 0 = if t = i then 1 else 0 := by
  have hlen : t < (unitRow n i).length := by rw [unitRow_length]; exact ht
  rw [List.getD_eq_getElem _ _ hlen]
  simp [unitRow]

theorem unitRow_inj (n i j : Nat) (hi : i < n) (_hj : j < n)
    (h : unitRow n i = unitRow n j) : i = j := by
  by_contra hne
  have h2 := congrArg (fun l => l.getD i 0) h
  simp only at h2
  rw [unitRow_getD n i i hi, unitRow_getD n j i hi] at h2
  simp [hne] at h2

/-- Number of rows of `rows` equal to the coefficient vector `v`. -/
def rowsFor (rows : List (List ℚ)) (v : List ℚ) : Nat :=
  rows.countP (fun r => decide (r = v))

theorem pairRows_length (n : Nat) (t : List Nat) :
    (t.flatMap fun j => [unitRow n j, unitRow n j]).length = 2 * t.length := by
  induction t with
  | nil => rfl
  | cons j rest ih =>
    simp only [List.flatMap_cons, List.length_append, List.length_cons, ih,
      List.length_nil, List.length_cons]
    omega

theorem rowsFor_pairRows (n i : Nat) (hi : i < n) :
    ∀ t : List Nat, (∀ j ∈ t, j < n) → t.Nodup →
      rowsFor (t.flatMap fun j => [unitRow n j, unitRow n j]) (unitRow n i)
        = if i ∈ t then 2 else 0 := by
  intro t
  induction t with
  | nil => intro _ _; simp [rowsFor]
  | cons j rest ih =>
    intro hb hnd
    have hrest := ih (fun x hx => hb x (List.mem_cons_of_mem j hx))
      (List.nodup_cons.mp hnd).2
    simp only [List.flatMap_cons]
    rw [rowsFor, List.countP_append, ← rowsFor, ← rowsFor, hrest]
    by_cases hij : i = j
    · subst hij
      have hnotin : i ∉ rest := (List.nodup_cons.mp hnd).1
      simp [rowsFor, List.countP_cons, hnotin]
    · have hrowne : ¬ unitRow n j = unitRow n i := fun hEq =>
        hij (unitRow_inj n i j hi (hb j (List.mem_cons_self j rest)) hEq.symm)
      have h0 : rowsFor [unitRow n j, unitRow n j] (unitRow n i) = 0 := by
        simp [rowsFor, List.countP_cons, hrowne]
      have hcond : (if i ∈ j :: rest then (2 : Nat) else 0)
          = if i ∈ rest then 2 else 0 := by
        simp [List.mem_cons, hij]
      rw [h0, hcond, Nat.zero_add]

/-- C8 (spec-modelled `add_bounds`): augmenting the constraint system of a
generated instance adds exactly two rows per restricted index, so the
augmented row count is `m + 2p`, and every restricted index governs exactly
two of the appended bound rows. -/
theorem c8_bound_rows (n m p : Nat) (density : ℚ) (g : RNG)
    (idx : List Nat) (g1 : RNG) (h : drawIndices n p g = .ok (idx, g1)) :
    ((genBody n m idx density g1).1.A).length = m + 2 * p
      ∧ ∀ i ∈ idx,
          rowsFor (((genBody n m idx density g1).1.A).drop m) (unitRow n i) = 2 := by
  obtain ⟨hlen, hnd, hmem⟩ := drawIndices_spec n p g idx g1 h
  set gB := (drawList n (drawMatrix n n density g1).2).2 with hgB
  have hA : (genBody n m idx density g1).1.A
      = (drawRows m n gB).1 ++ idx.flatMap (fun j => [unitRow n j, unitRow n j]) := rfl
  have hAr : (drawRows m n gB).1.length = m := drawRows_length m n gB
  constructor
  · rw [hA, List.length_append, hAr, pairRows_length, hlen]
  · intro i hi
    have hdrop : ((genBody n m idx density g1).1.A).drop m
        = idx.flatMap (fun j => [unitRow n j, unitRow n j]) := by
      rw [hA, List.drop_left' hAr]
    rw [hdrop, rowsFor_pairRows n i (hmem i hi) idx hmem hnd]
    simp [hi]

/-- Witness instantiating C8 on a concrete successful index draw. -/
theorem c8_witness :
    drawIndices 1 0 ⟨fun _ => 0, 0⟩ = .ok ([], ⟨fun _ => 0, 0⟩)
      ∧ (((genBody 1 1 [] (6/10) ⟨fun _ => 0, 0⟩).1.A).length = 1 + 2 * 0
          ∧ ∀ i ∈ ([] : List Nat),
              rowsFor (((genBody 1 1 [] (6/10) ⟨fun _ => 0, 0⟩).1.A).drop 1)
                (unitRow 1 i) = 2) :=
  ⟨rfl, c8_bound_rows 1 1 0 (6/10) ⟨fun _ => 0, 0⟩ [] ⟨fun _ => 0, 0⟩ rfl⟩

theorem generate_ok (n m p : Nat) (d : ℚ) (g : RNG) (h1 : n ≠ 0) (h2 : p ≤ n) :
    generate n m p d g
      = .ok (genBody n m (pickLoop (List.range n) p g).1 d
          (pickLoop (List.range n) p g).2) := by
  rw [generate, drawIndices_ok n p g h1 h2]
  rfl

theorem repLoop_succ (solver : String) (gb : GBackend) (mq : MBackend)
    (i n m p : Nat) (d : ℚ) (k j : Nat) (g : RNG) :
    repLoop solver gb mq i n m p d (k + 1) j g
      = (generate n m p d g).bind fun ig =>
          (repLoop solver gb mq i n m p d k (j + 1) ig.2).bind fun r =>
            let sv := repStep solver gb mq i j ig.1
            .ok ⟨sv.1 :: r.ss, sv.2.1 :: r.oss, sv.2.2 ++ r.evs, r.g⟩ := rfl

/-- Unfolding of one successful repetition: the generator succeeds and the
loop continues from the post-generation random state. -/
theorem repLoop_succ_ok (solver : String) (gb : GBackend) (mq : MBackend)
    (i n m p : Nat) (d : ℚ) (h1 : n ≠ 0) (h2 : p ≤ n) (k j : Nat) (g : RNG) :
    repLoop solver gb mq i n m p d (k + 1) j g
      = (repLoop solver gb mq i n m p d k (j + 1)
            (genBody n m (pickLoop (List.range n) p g).1 d
              (pickLoop (List.range n) p g).2).2).bind fun r =>
          let sv := repStep solver gb mq i j
            (genBody n m (pickLoop (List.range n) p g).1 d
              (pickLoop (List.range n) p g).2).1
          .ok ⟨sv.1 :: r.ss, sv.2.1 :: r.oss, sv.2.2 ++ r.evs, r.g⟩ := by
  rw [repLoop_succ, generate_ok n m p d g h1 h2]
  rfl

/-- A repetition loop over a valid configuration always succeeds and returns
one primary and one secondary sample per repetition. -/
theorem repLoop_ok (solver : String) (gb : GBackend) (mq : MBackend)
    (i n m p : Nat) (d : ℚ) (h1 : n ≠ 0) (h2 : p ≤ n) :
    ∀ (k j : Nat) (g : RNG), ∃ r : RepAcc,
      repLoop solver gb mq i n m p d k j g = .ok r
        ∧ r.ss.length = k ∧ r.oss.length = k := by
  intro k
  induction k with
  | zero => intro j g; exact ⟨⟨[], [], [], g⟩, rfl, rfl, rfl⟩
  | succ k ih =>
    intro j g
    obtain ⟨r, hr, hss, hoss⟩ := ih (j + 1)
      (genBody n m (pickLoop (List.range n) p g).1 d (pickLoop (List.range n) p g).2).2
    set sv := repStep solver gb mq i j
      (genBody n m (pickLoop (List.range n) p g).1 d (pickLoop (List.range n) p g).2).1
      with hsv
    refine ⟨⟨sv.1 :: r.ss, sv.2.1 :: r.oss, sv.2.2 ++ r.evs, r.g⟩, ?_, ?_, ?_⟩
    · rw [repLoop_succ_ok solver gb mq i n m p d h1 h2 k j g, hr]
      rfl
    · simp [hss]
    · simp [hoss]

/-- For an unrecognized solver tag the repetition loop performs no backend
call: every sample slot keeps its zero value and no debugger breakpoint
fires. -/
theorem repLoop_unknown (solver : String) (gb : GBackend) (mq : MBackend)
    (i n m p : Nat) (d : ℚ) (hs1 : solver ≠ "gurobi") (hs2 : solver ≠ "miosqp")
    (h1 : n ≠ 0) (h2 : p ≤ n) :
    ∀ (k j : Nat) (g : RNG), ∃ gend : RNG,
      repLoop solver gb mq i n m p d k j g
        = .ok ⟨List.replicate k 0, List.replicate k 0, [], gend⟩ := by
  intro k
  induction k with
  | zero => intro j g; exact ⟨g, rfl⟩
  | succ k ih =>
    intro j g
    obtain ⟨gend, hr⟩ := ih (j + 1)
      (genBody n m (pickLoop (List.range n) p g).1 d (pickLoop (List.range n) p g).2).2
    refine ⟨gend, ?_⟩
    rw [repLoop_succ_ok solver gb mq i n m p d h1 h2 k j g, hr]
    have hstep : repStep solver gb mq i j
        (genBody n m (pickLoop (List.range n) p g).1 d
          (pickLoop (List.range n) p g).2).1 = (0, 0, []) := by
      rw [repStep, if_neg hs1, if_neg hs2]
    show Except.ok _ = _
    rw [hstep]
    simp [List.replicate_succ]

theorem mapError_ok {ε ε' α : Type} (f : ε → ε') (a : α) :
    (Except.ok a : Except ε α).mapError f = .ok a := rfl

theorem bind_ok_eq {ε α β : Type} (a : α) (f : α → Except ε β) :
    (Except.ok a : Except ε α).bind f = f a := rfl

theorem getElem?_some_getD (l : List Nat) (t : Nat) (h : t < l.length) :
    l[t]? = some (l.getD t 0) := by
  rw [List.getElem?_eq_getElem h, List.getD_eq_getElem _ _ h]

/-- The configuration at index `t` of the sweep is readable from all three
dimension vectors and satisfies the generator's preconditions. -/
def cfgValid (n_vec m_vec p_vec : List Nat) (t : Nat) : Prop :=
  t < n_vec.length ∧ t < m_vec.length ∧ t < p_vec.length
    ∧ n_vec.getD t 0 ≠ 0 ∧ p_vec.getD t 0 ≤ n_vec.getD t 0

/-- Unfolding of one configuration step whose index reads succeed. -/
theorem cfgLoop_succ_ok (solver : String) (gb : GBackend) (mq : MBackend)
    (n_vec m_vec p_vec : List Nat) (rep : Nat) (d : ℚ) (k i : Nat) (g : RNG)
    (hv : cfgValid n_vec m_vec p_vec i) :
    cfgLoop solver gb mq n_vec m_vec p_vec rep d (k + 1) i g
      = ((repLoop solver gb mq i (n_vec.getD i 0) (m_vec.getD i 0) (p_vec.getD i 0)
            d rep 0 g).mapError (fun _ => RunError.invalidParameters)).bind fun r =>
          ((aggregate r.ss).mapError (fun _ => RunError.emptySample)).bind fun t =>
            (if solver = "miosqp" then
                (aggregate r.oss).mapError (fun _ => RunError.emptySample)
              else .ok zeroStats).bind fun tos =>
              (cfgLoop solver gb mq n_vec m_vec p_vec rep d k (i + 1) r.g).bind fun c =>
                .ok ⟨t :: c.ts, tos :: c.toss, r.evs ++ c.evs, c.g⟩ := by
  have hn : n_vec[i]? = some (n_vec.getD i 0) := getElem?_some_getD _ _ hv.1
  have hm : m_vec[i]? = some (m_vec.getD i 0) := getElem?_some_getD _ _ hv.2.1
  have hp : p_vec[i]? = some (p_vec.getD i 0) := getElem?_some_getD _ _ hv.2.2.1
  simp only [cfgLoop, hn, hm, hp]

/-- Every nonempty sample list aggregates successfully. -/
theorem aggregate_ne_nil (xs : List ℚ) (h : xs ≠ []) : ∃ t, aggregate xs = .ok t := by
  match xs, h with
  | x :: rest, _ => exact ⟨_, rfl⟩

/-- A configuration loop over valid configurations with at least one
repetition succeeds, returns one statistics record per configuration, and
every primary statistics record satisfies `min ≤ mean ≤ max`. -/
theorem cfgLoop_ok (solver : String) (gb : GBackend) (mq : MBackend)
    (n_vec m_vec p_vec : List Nat) (rep : Nat) (d : ℚ) (hrep : 1 ≤ rep) :
    ∀ (k i : Nat) (g : RNG), (∀ t, t < k → cfgValid n_vec m_vec p_vec (i + t)) →
      ∃ c : CfgAcc, cfgLoop solver gb mq n_vec m_vec p_vec rep d k i g = .ok c
        ∧ c.ts.length = k ∧ c.toss.length = k
        ∧ ∀ s ∈ c.ts, s.tmin ≤ s.avg ∧ s.avg ≤ s.tmax := by
  intro k
  induction k with
  | zero =>
    intro i g _
    exact ⟨⟨[], [], [], g⟩, rfl, rfl, rfl, fun s hs => absurd hs (List.not_mem_nil s)⟩
  | succ k ih =>
    intro i g hv
    have hvi : cfgValid n_vec m_vec p_vec i := by simpa using hv 0 (Nat.succ_pos k)
    obtain ⟨r, hr, hss, hoss⟩ := repLoop_ok solver gb mq i (n_vec.getD i 0)
      (m_vec.getD i 0) (p_vec.getD i 0) d hvi.2.2.2.1 hvi.2.2.2.2 rep 0 g
    have hssne : r.ss ≠ [] := by
      intro hnil
      rw [hnil] at hss
      simp at hss
      omega
    obtain ⟨t, ht⟩ := aggregate_ne_nil r.ss hssne
    obtain ⟨tos, htos⟩ : ∃ tos, (if solver = "miosqp"
        then (aggregate r.oss).mapError (fun _ => RunError.emptySample)
        else .ok zeroStats) = .ok tos := by
      by_cases hms : solver = "miosqp"
      · have hossne : r.oss ≠ [] := by
          intro hnil
          rw [hnil] at hoss
          simp at hoss
          omega
        obtain ⟨tos, htos'⟩ := aggregate_ne_nil r.oss hossne
        refine ⟨tos, ?_⟩
        rw [if_pos hms, htos']
        rfl
      · exact ⟨zeroStats, by rw [if_neg hms]⟩
    obtain ⟨c, hc, hts, htoss, hb⟩ := ih (i + 1) r.g (fun u hu => by
      have hshift : i + 1 + u = i + (u + 1) := by omega
      rw [hshift]
      exact hv (u + 1) (Nat.succ_lt_succ hu))
    refine ⟨⟨t :: c.ts, tos :: c.toss, r.evs ++ c.evs, c.g⟩, ?_,
      by simp [hts], by simp [htoss], ?_⟩
    · rw [cfgLoop_succ_ok solver gb mq n_vec m_vec p_vec rep d k i g hvi]
      simp only [hr, ht, htos, hc, mapError_ok, bind_ok_eq]
    · intro s hs
      rcases List.mem_cons.mp hs with h1 | h2
      · subst h1
        exact aggregate_bounds r.ss s ht
      · exact hb s h2

/-- Aggregating `rep ≥ 1` copies of a constant sample (for example the
untouched zeros of an unrecognized solver tag) yields that constant. -/
theorem aggregate_replicate_of_pos (rep : Nat) (x : ℚ) (hrep : 1 ≤ rep) :
    aggregate (List.replicate rep x) = .ok ⟨x, x, x⟩ := by
  obtain ⟨k, rfl⟩ : ∃ k, rep = k + 1 := ⟨rep - 1, by omega⟩
  exact aggregate_replicate k x

/-- For an unrecognized solver tag the whole configuration loop still runs
to completion: every configuration's statistics are all zero and no
debugger breakpoint ever fires. -/
theorem cfgLoop_unknown (solver : String) (gb : GBackend) (mq : MBackend)
    (n_vec m_vec p_vec : List Nat) (rep : Nat) (d : ℚ)
    (hs1 : solver ≠ "gurobi") (hs2 : solver ≠ "miosqp") (hrep : 1 ≤ rep) :
    ∀ (k i : Nat) (g : RNG), (∀ t, t < k → cfgValid n_vec m_vec p_vec (i + t)) →
      ∃ gend : RNG, cfgLoop solver gb mq n_vec m_vec p_vec rep d k i g
        = .ok ⟨List.replicate k zeroStats, List.replicate k zeroStats, [], gend⟩ := by
  intro k
  induction k with
  | zero => intro i g _; exact ⟨g, rfl⟩
  | succ k ih =>
    intro i g hv
    have hvi : cfgValid n_vec m_vec p_vec i := by simpa using hv 0 (Nat.succ_pos k)
    obtain ⟨gend1, hr⟩ := repLoop_unknown solver gb mq i (n_vec.getD i 0)
      (m_vec.getD i 0) (p_vec.getD i 0) d hs1 hs2 hvi.2.2.2.1 hvi.2.2.2.2 rep 0 g
    have ht : aggregate (List.replicate rep (0 : ℚ)) = .ok ⟨0, 0, 0⟩ :=
      aggregate_replicate_of_pos rep 0 hrep
    obtain ⟨gend, hc⟩ := ih (i + 1) gend1 (fun u hu => by
      have hshift : i + 1 + u = i + (u + 1) := by omega
      rw [hshift]
      exact hv (u + 1) (Nat.succ_lt_succ hu))
    refine ⟨gend, ?_⟩
    rw [cfgLoop_succ_ok solver gb mq n_vec m_vec p_vec rep d k i g hvi]
    simp only [hr, mapError_ok, bind_ok_eq, ht, if_neg hs2, hc]
    show Except.ok _ = _
    simp [List.replicate_succ, zeroStats]

/-- When the loop bound exceeds the length of `n_vec` and all readable
configurations are valid, the configuration loop fails with the index
error raised at the first out-of-range read. -/
theorem cfgLoop_indexError (solver : String) (gb : GBackend) (mq : MBackend)
    (n_vec m_vec p_vec : List Nat) (rep : Nat) (d : ℚ) (hrep : 1 ≤ rep)
    (hvalid : ∀ t, t < n_vec.length → cfgValid n_vec m_vec p_vec t) :
    ∀ (k i : Nat) (g : RNG), i ≤ n_vec.length → n_vec.length < i + k →
      cfgLoop solver gb mq n_vec m_vec p_vec rep d k i g = .error .indexError := by
  intro k
  induction k with
  | zero =>
    intro i g hle hover
    omega
  | succ k ih =>
    intro i g hle hover
    by_cases hi : i < n_vec.length
    · have hvi : cfgValid n_vec m_vec p_vec i := hvalid i hi
      obtain ⟨r, hr, hss, hoss⟩ := repLoop_ok solver gb mq i (n_vec.getD i 0)
        (m_vec.getD i 0) (p_vec.getD i 0) d hvi.2.2.2.1 hvi.2.2.2.2 rep 0 g
      have hssne : r.ss ≠ [] := by
        intro hnil
        rw [hnil] at hss
        simp at hss
        omega
      obtain ⟨t, ht⟩ := aggregate_ne_nil r.ss hssne
      obtain ⟨tos, htos⟩ : ∃ tos, (if solver = "miosqp"
          then (aggregate r.oss).mapError (fun _ => RunError.emptySample)
          else .ok zeroStats) = .ok tos := by
        by_cases hms : solver = "miosqp"
        · have hossne : r.oss ≠ [] := by
            intro hnil
            rw [hnil] at hoss
            simp at hoss
            omega
          obtain ⟨tos, htos'⟩ := aggregate_ne_nil r.oss hossne
          refine ⟨tos, ?_⟩
          rw [if_pos hms, htos']
          rfl
        · exact ⟨zeroStats, by rw [if_neg hms]⟩
      have hrec := ih (i + 1) r.g (by omega) (by omega)
      rw [cfgLoop_succ_ok solver gb mq n_vec m_vec p_vec rep d k i g hvi]
      simp only [hr, ht, htos, hrec, mapError_ok, bind_ok_eq]
      rfl
    · have hieq : i = n_vec.length := by omega
      have hnone : n_vec[i]? = none := by
        rw [List.getElem?_eq_none_iff]
        omega
      simp only [cfgLoop, hnone]

/-- The row a report slot falls back to (never used for in-range reads). -/
def defaultRow : Row := ⟨0, 0, 0, zeroStats, none⟩

theorem solve_some_eq (gb : GBackend) (mq : MBackend) (np : Nat)
    (n_vec m_vec p_vec : List Nat) (rep : Nat) (d : ℚ) (st : Nat → ℚ)
    (solver : String) :
    solve gb mq (some np) n_vec m_vec p_vec rep d st solver
      = (cfgLoop solver gb mq n_vec m_vec p_vec rep d np 0 ⟨st, 0⟩).bind fun c =>
          if m_vec.length = n_vec.length ∧ p_vec.length = n_vec.length then
            .ok ⟨(List.range n_vec.length).map fun i =>
                  { n := n_vec.getD i 0, m := m_vec.getD i 0, p := p_vec.getD i 0,
                    t := c.ts.getD i zeroStats,
                    osqp := if solver = "miosqp" then some (c.toss.getD i zeroStats)
                            else none },
                c.evs⟩
          else .error .valueError := rfl

theorem getD_map_range (L : Nat) (f : Nat → Row) (i : Nat) (h : i < L) (dft : Row) :
    ((List.range L).map f).getD i dft = f i := by
  have hlen : i < ((List.range L).map f).length := by
    simpa using h
  rw [List.getD_eq_getElem _ _ hlen]
  simp

/-- C6: for a sweep whose global problem count equals the number of declared
configurations, the run succeeds and the report has exactly one row per
declared `(n, m, p)` configuration, in declared order, each row pairing the
configuration's dimensions with its statistics, and the primary statistics
of every row satisfy `min ≤ mean ≤ max`. -/
theorem c6_report_shape (gb : GBackend) (mq : MBackend)
    (n_vec m_vec p_vec : List Nat) (rep : Nat) (d : ℚ) (st : Nat → ℚ)
    (solver : String)
    (hm : m_vec.length = n_vec.length) (hp : p_vec.length = n_vec.length)
    (hrep : 1 ≤ rep)
    (hvalid : ∀ t, t < n_vec.length →
      n_vec.getD t 0 ≠ 0 ∧ p_vec.getD t 0 ≤ n_vec.getD t 0) :
    ∃ out : RunOut,
      solve gb mq (some n_vec.length) n_vec m_vec p_vec rep d st solver = .ok out
        ∧ out.report.length = n_vec.length
        ∧ ∀ i, i < n_vec.length →
            (out.report.getD i defaultRow).n = n_vec.getD i 0
            ∧ (out.report.getD i defaultRow).m = m_vec.getD i 0
            ∧ (out.report.getD i defaultRow).p = p_vec.getD i 0
            ∧ (out.report.getD i defaultRow).t.tmin ≤ (out.report.getD i defaultRow).t.avg
            ∧ (out.report.getD i defaultRow).t.avg ≤ (out.report.getD i defaultRow).t.tmax := by
  have hv : ∀ t, t < n_vec.length → cfgValid n_vec m_vec p_vec (0 + t) := by
    intro t ht
    simp only [Nat.zero_add]
    exact ⟨ht, by omega, by omega, (hvalid t ht).1, (hvalid t ht).2⟩
  obtain ⟨c, hc, hts, htoss, hb⟩ := cfgLoop_ok solver gb mq n_vec m_vec p_vec rep d hrep
    n_vec.length 0 ⟨st, 0⟩ hv
  refine ⟨⟨(List.range n_vec.length).map fun i =>
      { n := n_vec.getD i 0, m := m_vec.getD i 0, p := p_vec.getD i 0,
        t := c.ts.getD i zeroStats,
        osqp := if solver = "miosqp" then some (c.toss.getD i zeroStats) else none },
    c.evs⟩, ?_, ?_, ?_⟩
  · rw [solve_some_eq, hc]
    rw [bind_ok_eq, if_pos (⟨hm, hp⟩ : m_vec.length = n_vec.length ∧ p_vec.length = n_vec.length)]
  · simp
  · intro i hi
    have hrow : (((List.range n_vec.length).map fun i =>
        ({ n := n_vec.getD i 0, m := m_vec.getD i 0, p := p_vec.getD i 0,
           t := c.ts.getD i zeroStats,
           osqp := if solver = "miosqp" then some (c.toss.getD i zeroStats)
                   else none } : Row)).getD i defaultRow)
        = { n := n_vec.getD i 0, m := m_vec.getD i 0, p := p_vec.getD i 0,
            t := c.ts.getD i zeroStats,
            osqp := if solver = "miosqp" then some (c.toss.getD i zeroStats)
                    else none } := getD_map_range n_vec.length _ i hi defaultRow
    have hmem : c.ts.getD i zeroStats ∈ c.ts := by
      have hilen : i < c.ts.length := by rw [hts]; exact hi
      rw [List.getD_eq_getElem _ _ hilen]
      exact List.getElem_mem hilen
    rw [hrow]
    exact ⟨rfl, rfl, rfl, (hb _ hmem).1, (hb _ hmem).2⟩

/-- Witness instantiating C6 on a concrete one-configuration sweep. -/
theorem c6_witness :
    (([1] : List Nat).length = ([1] : List Nat).length
        ∧ ([1] : List Nat).length = ([1] : List Nat).length ∧ 1 ≤ 1
        ∧ ∀ t, t < ([1] : List Nat).length →
            ([1] : List Nat).getD t 0 ≠ 0
              ∧ ([1] : List Nat).getD t 0 ≤ ([1] : List Nat).getD t 0)
      ∧ ∃ out : RunOut,
          solve (fun _ _ => ⟨"optimal", 1⟩) (fun _ _ => ⟨MI_SOLVED, 1, 1⟩)
              (some ([1] : List Nat).length) [1] [1] [1] 1 (6/10) (fun _ => 0) "gurobi"
            = .ok out
            ∧ out.report.length = ([1] : List Nat).length
            ∧ ∀ i, i < ([1] : List Nat).length →
                (out.report.getD i defaultRow).n = ([1] : List Nat).getD i 0
                ∧ (out.report.getD i defaultRow).m = ([1] : List Nat).getD i 0
                ∧ (out.report.getD i defaultRow).p = ([1] : List Nat).getD i 0
                ∧ (out.report.getD i defaultRow).t.tmin
                    ≤ (out.report.getD i defaultRow).t.avg
                ∧ (out.report.getD i defaultRow).t.avg
                    ≤ (out.report.getD i defaultRow).t.tmax := by
  refine ⟨⟨rfl, rfl, le_refl 1, ?_⟩, ?_⟩
  · decide
  · exact c6_report_shape (fun _ _ => ⟨"optimal", 1⟩) (fun _ _ => ⟨MI_SOLVED, 1, 1⟩)
      [1] [1] [1] 1 (6/10) (fun _ => 0) "gurobi" rfl rfl (le_refl 1) (by decide)

/-- C10: the sweep iterates over the module-level global `n_prob`, not over
the length of `n_vec`.  When the global is undefined (`none`, e.g. `solve`
invoked from an importing module) the call fails with `NameError`; when the
global exceeds the number of declared configurations the call fails with the
out-of-range `IndexError`; and when it is at most that number the call
succeeds, the report still has one row per entry of `n_vec`, and every
configuration past the global bound is silently skipped, its row keeping the
all-zero statistics. -/
theorem c10_nprob_global (gb : GBackend) (mq : MBackend)
    (n_vec m_vec p_vec : List Nat) (rep : Nat) (d : ℚ) (st : Nat → ℚ)
    (solver : String)
    (hm : m_vec.length = n_vec.length) (hp : p_vec.length = n_vec.length)
    (hrep : 1 ≤ rep)
    (hvalid : ∀ t, t < n_vec.length →
      n_vec.getD t 0 ≠ 0 ∧ p_vec.getD t 0 ≤ n_vec.getD t 0) :
    (solve gb mq none n_vec m_vec p_vec rep d st solver = .error .nameError)
      ∧ (∀ k, n_vec.length < k →
          solve gb mq (some k) n_vec m_vec p_vec rep d st solver
            = .error .indexError)
      ∧ (∀ k, k ≤ n_vec.length →
          ∃ out : RunOut,
            solve gb mq (some k) n_vec m_vec p_vec rep d st solver = .ok out
              ∧ out.report.length = n_vec.length
              ∧ ∀ i, k ≤ i → i < n_vec.length →
                  (out.report.getD i defaultRow).t = zeroStats) := by
  have hcv : ∀ t, t < n_vec.length → cfgValid n_vec m_vec p_vec t := by
    intro t ht
    exact ⟨ht, by omega, by omega, (hvalid t ht).1, (hvalid t ht).2⟩
  refine ⟨rfl, ?_, ?_⟩
  · intro k hk
    have herr := cfgLoop_indexError solver gb mq n_vec m_vec p_vec rep d hrep hcv
      k 0 ⟨st, 0⟩ (Nat.zero_le _) (by omega)
    rw [solve_some_eq, herr]
    rfl
  · intro k hk
    have hv : ∀ t, t < k → cfgValid n_vec m_vec p_vec (0 + t) := by
      intro t ht
      simp only [Nat.zero_add]
      exact hcv t (by omega)
    obtain ⟨c, hc, hts, htoss, hb⟩ := cfgLoop_ok solver gb mq n_vec m_vec p_vec rep d hrep
      k 0 ⟨st, 0⟩ hv
    refine ⟨⟨(List.range n_vec.length).map fun i =>
        { n := n_vec.getD i 0, m := m_vec.getD i 0, p := p_vec.getD i 0,
          t := c.ts.getD i zeroStats,
          osqp := if solver = "miosqp" then some (c.toss.getD i zeroStats) else none },
      c.evs⟩, ?_, ?_, ?_⟩
    · rw [solve_some_eq, hc]
      rw [bind_ok_eq,
        if_pos (⟨hm, hp⟩ : m_vec.length = n_vec.length ∧ p_vec.length = n_vec.length)]
    · simp
    · intro i hki hi
      have hrow := getD_map_range n_vec.length (fun i =>
        ({ n := n_vec.getD i 0, m := m_vec.getD i 0, p := p_vec.getD i 0,
           t := c.ts.getD i zeroStats,
           osqp := if solver = "miosqp" then some (c.toss.getD i zeroStats)
                   else none } : Row)) i hi defaultRow
      rw [hrow]
      show c.ts.getD i zeroStats = zeroStats
      have hover : c.ts.length ≤ i := by rw [hts]; exact hki
      exact List.getD_eq_default _ _ hover

/-- Witness instantiating all three branches of C10 on a concrete
two-configuration sweep. -/
theorem c10_witness :
    (([1, 1] : List Nat).length = ([1, 1] : List Nat).length
        ∧ ([1, 1] : List Nat).length = ([1, 1] : List Nat).length ∧ 1 ≤ 1
        ∧ ∀ t, t < ([1, 1] : List Nat).length →
            ([1, 1] : List Nat).getD t 0 ≠ 0
              ∧ ([1, 1] : List Nat).getD t 0 ≤ ([1, 1] : List Nat).getD t 0)
      ∧ ((solve (fun _ _ => ⟨"optimal", 1⟩) (fun _ _ => ⟨MI_SOLVED, 1, 1⟩) none
            [1, 1] [1, 1] [1, 1] 1 (6/10) (fun _ => 0) "gurobi" = .error .nameError)
          ∧ (∀ k, ([1, 1] : List Nat).length < k →
              solve (fun _ _ => ⟨"optimal", 1⟩) (fun _ _ => ⟨MI_SOLVED, 1, 1⟩) (some k)
                  [1, 1] [1, 1] [1, 1] 1 (6/10) (fun _ => 0) "gurobi"
                = .error .indexError)
          ∧ (∀ k, k ≤ ([1, 1] : List Nat).length →
              ∃ out : RunOut,
                solve (fun _ _ => ⟨"optimal", 1⟩) (fun _ _ => ⟨MI_SOLVED, 1, 1⟩) (some k)
                    [1, 1] [1, 1] [1, 1] 1 (6/10) (fun _ => 0) "gurobi" = .ok out
                  ∧ out.report.length = ([1, 1] : List Nat).length
                  ∧ ∀ i, k ≤ i → i < ([1, 1] : List Nat).length →
                      (out.report.getD i defaultRow).t = zeroStats)) := by
  refine ⟨⟨rfl, rfl, le_refl 1, ?_⟩, ?_⟩
  · decide
  · exact c10_nprob_global (fun _ _ => ⟨"optimal", 1⟩) (fun _ _ => ⟨MI_SOLVED, 1, 1⟩)
      [1, 1] [1, 1] [1, 1] 1 (6/10) (fun _ => 0) "gurobi" rfl rfl (le_refl 1) (by decide)

theorem genSeq_length (n m p : Nat) (d : ℚ) :
    ∀ (k : Nat) (g : RNG), (genSeq n m p d k g).1.length = k := by
  intro k
  induction k with
  | zero => intro g; rfl
  | succ k ih =>
    intro g
    simp only [genSeq, List.length_cons]
    rw [ih]

/-- One repetition's backend dispatch, split into its status-independent
samples and its status-dependent breakpoint. -/
theorem repStep_eq (solver : String) (gb : GBackend) (mq : MBackend)
    (i j : Nat) {n : Nat} (inst : ProblemInstance n) :
    repStep solver gb mq i j inst
      = ((stepSample solver gb mq inst).1, (stepSample solver gb mq inst).2,
         if stepBad solver gb mq inst then [⟨i, j⟩] else []) := by
  by_cases hg : solver = "gurobi"
  · simp [repStep, stepSample, stepBad, hg]
  · by_cases hm : solver = "miosqp"
    · simp [repStep, stepSample, stepBad, hg, hm]
    · simp [repStep, stepSample, stepBad, hg, hm]

/-- Full characterization of a valid repetition loop for an arbitrary
backend pair: it always succeeds, the recorded samples are exactly the
per-repetition backend times of the generated instance sequence (whatever
each repetition's status is), and the breakpoint list carries exactly one
event per repetition whose status is non-optimal. -/
theorem repLoop_char (solver : String) (gb : GBackend) (mq : MBackend)
    (i n m p : Nat) (d : ℚ) (h1 : n ≠ 0) (h2 : p ≤ n) :
    ∀ (k j : Nat) (g : RNG),
      repLoop solver gb mq i n m p d k j g
        = .ok ⟨(genSeq n m p d k g).1.map (fun inst => (stepSample solver gb mq inst).1),
               (genSeq n m p d k g).1.map (fun inst => (stepSample solver gb mq inst).2),
               ((List.range' j k).zip (genSeq n m p d k g).1).flatMap
                 (fun jt => if stepBad solver gb mq jt.2 then [⟨i, jt.1⟩] else []),
               (genSeq n m p d k g).2⟩ := by
  intro k
  induction k with
  | zero => intro j g; rfl
  | succ k ih =>
    intro j g
    rw [repLoop_succ_ok solver gb mq i n m p d h1 h2 k j g, ih (j + 1)
      (genBody n m (pickLoop (List.range n) p g).1 d (pickLoop (List.range n) p g).2).2]
    show Except.ok _ = _
    simp only [genSeq, List.map_cons, List.range'_succ, List.zip_cons_cons,
      List.flatMap_cons, repStep_eq, Except.ok.injEq, RepAcc.mk.injEq]

theorem stateAt_shift (nv mv pv : List Nat) (rep : Nat) (d : ℚ) (i : Nat) (g : RNG) :
    ∀ t : Nat,
      stateAt nv mv pv rep d i g (t + 1)
        = stateAt nv mv pv rep d (i + 1)
            ((genSeq (nv.getD i 0) (mv.getD i 0) (pv.getD i 0) d rep g).2) t := by
  intro t
  induction t with
  | zero => simp [stateAt]
  | succ t ih =>
    show (genSeq (nv.getD (i + (t + 1)) 0) (mv.getD (i + (t + 1)) 0)
        (pv.getD (i + (t + 1)) 0) d rep (stateAt nv mv pv rep d i g (t + 1))).2 = _
    rw [ih]
    have hsh : i + (t + 1) = i + 1 + t := by omega
    rw [hsh]
    rfl

theorem flatMap_range_succ {β : Type} (k : Nat) (f : Nat → List β) :
    (List.range (k + 1)).flatMap f
      = f 0 ++ (List.range k).flatMap fun u => f (u + 1) := by
  rw [List.range_succ_eq_map, List.flatMap_cons, List.flatMap_map]

/-- Full characterization of a valid configuration loop for an arbitrary
backend pair: it succeeds, each configuration's statistics are exactly the
aggregation of that configuration's per-repetition backend times, and the
breakpoint list is the concatenation over configurations of one event per
non-optimal repetition. -/
theorem cfgLoop_char (solver : String) (gb : GBackend) (mq : MBackend)
    (nv mv pv : List Nat) (rep : Nat) (d : ℚ) (hrep : 1 ≤ rep) :
    ∀ (k i : Nat) (g : RNG), (∀ t, t < k → cfgValid nv mv pv (i + t)) →
      ∃ c : CfgAcc, cfgLoop solver gb mq nv mv pv rep d k i g = .ok c
        ∧ c.ts.length = k
        ∧ (∀ t, t < k →
            aggregate (cfgSamples solver gb mq (nv.getD (i + t) 0) (mv.getD (i + t) 0)
                (pv.getD (i + t) 0) rep d (stateAt nv mv pv rep d i g t))
              = .ok (c.ts.getD t zeroStats))
        ∧ c.evs = (List.range k).flatMap fun t =>
            cfgEvents solver gb mq (i + t) (nv.getD (i + t) 0) (mv.getD (i + t) 0)
              (pv.getD (i + t) 0) rep d (stateAt nv mv pv rep d i g t) := by
  intro k
  induction k with
  | zero =>
    intro i g _
    exact ⟨⟨[], [], [], g⟩, rfl, rfl, fun t ht => absurd ht (Nat.not_lt_zero t), rfl⟩
  | succ k ih =>
    intro i g hv
    have hvi : cfgValid nv mv pv i := by simpa using hv 0 (Nat.succ_pos k)
    have hrl := repLoop_char solver gb mq i (nv.getD i 0) (mv.getD i 0) (pv.getD i 0) d
      hvi.2.2.2.1 hvi.2.2.2.2 rep 0 g
    have hlen : (genSeq (nv.getD i 0) (mv.getD i 0) (pv.getD i 0) d rep g).1.length
        = rep := genSeq_length _ _ _ _ rep g
    have hssne : cfgSamples solver gb mq (nv.getD i 0) (mv.getD i 0) (pv.getD i 0)
        rep d g ≠ [] := by
      intro hnil
      have := congrArg List.length hnil
      rw [cfgSamples, List.length_map, hlen] at this
      simp at this
      omega
    obtain ⟨t0, ht0⟩ := aggregate_ne_nil _ hssne
    have hossne : (genSeq (nv.getD i 0) (mv.getD i 0) (pv.getD i 0) d rep g).1.map
        (fun inst => (stepSample solver gb mq inst).2) ≠ [] := by
      intro hnil
      have := congrArg List.length hnil
      rw [List.length_map, hlen] at this
      simp at this
      omega
    obtain ⟨tos, htos⟩ : ∃ tos, (if solver = "miosqp"
        then (aggregate ((genSeq (nv.getD i 0) (mv.getD i 0) (pv.getD i 0) d rep g).1.map
          (fun inst => (stepSample solver gb mq inst).2))).mapError
            (fun _ => RunError.emptySample)
        else .ok zeroStats) = .ok tos := by
      by_cases hms : solver = "miosqp"
      · obtain ⟨tos, htos'⟩ := aggregate_ne_nil _ hossne
        refine ⟨tos, ?_⟩
        rw [if_pos hms, htos']
        rfl
      · exact ⟨zeroStats, by rw [if_neg hms]⟩
    obtain ⟨c, hc, hts, hstats, hevs⟩ := ih (i + 1)
      ((genSeq (nv.getD i 0) (mv.getD i 0) (pv.getD i 0) d rep g).2) (fun u hu => by
        have hsh : i + 1 + u = i + (u + 1) := by omega
        rw [hsh]
        exact hv (u + 1) (Nat.succ_lt_succ hu))
    refine ⟨⟨t0 :: c.ts, tos :: c.toss, (cfgEvents solver gb mq i (nv.getD i 0)
      (mv.getD i 0) (pv.getD i 0) rep d g) ++ c.evs, c.g⟩, ?_, ?_, ?_, ?_⟩
    · rw [cfgLoop_succ_ok solver gb mq nv mv pv rep d k i g hvi, hrl]
      simp only [mapError_ok, bind_ok_eq]
      have ht0' : (aggregate ((genSeq (nv.getD i 0) (mv.getD i 0) (pv.getD i 0) d
          rep g).1.map (fun inst => (stepSample solver gb mq inst).1))).mapError
            (fun _ => RunError.emptySample) = .ok t0 := by
        rw [show aggregate ((genSeq (nv.getD i 0) (mv.getD i 0) (pv.getD i 0) d
          rep g).1.map (fun inst => (stepSample solver gb mq inst).1)) = .ok t0 from ht0]
        rfl
      rw [ht0', bind_ok_eq, htos, bind_ok_eq, hc, bind_ok_eq]
      rfl
    · simp [hts]
    · intro t ht
      cases t with
      | zero =>
        show aggregate (cfgSamples solver gb mq (nv.getD (i + 0) 0) (mv.getD (i + 0) 0)
          (pv.getD (i + 0) 0) rep d (stateAt nv mv pv rep d i g 0)) = .ok t0
        simpa using ht0
      | succ u =>
        have hu : u < k := by omega
        have hsh : i + (u + 1) = i + 1 + u := by omega
        show aggregate (cfgSamples solver gb mq (nv.getD (i + (u + 1)) 0)
            (mv.getD (i + (u + 1)) 0) (pv.getD (i + (u + 1)) 0) rep d
            (stateAt nv mv pv rep d i g (u + 1)))
          = .ok ((t0 :: c.ts).getD (u + 1) zeroStats)
        rw [stateAt_shift nv mv pv rep d i g u, hsh]
        exact hstats u hu
    · show cfgEvents solver gb mq i (nv.getD i 0) (mv.getD i 0) (pv.getD i 0) rep d g
          ++ c.evs = _
      rw [hevs, flatMap_range_succ]
      have hfun : (fun u => cfgEvents solver gb mq (i + (u + 1)) (nv.getD (i + (u + 1)) 0)
          (mv.getD (i + (u + 1)) 0) (pv.getD (i + (u + 1)) 0) rep d
          (stateAt nv mv pv rep d i g (u + 1)))
          = fun u => cfgEvents solver gb mq (i + 1 + u) (nv.getD (i + 1 + u) 0)
            (mv.getD (i + 1 + u) 0) (pv.getD (i + 1 + u) 0) rep d
            (stateAt nv mv pv rep d (i + 1)
              ((genSeq (nv.getD i 0) (mv.getD i 0) (pv.getD i 0) d rep g).2) u) := by
        funext u
        have hsh : i + (u + 1) = i + 1 + u := by omega
        rw [hsh, stateAt_shift nv mv pv rep d i g u]
      rw [hfun]
      rfl

/-- C1 (amended): for every sweep over valid configurations with at least
one repetition and any backend pair — covering both dispatch branches and
repetitions of mixed statuses — the run never raises on a well-formed
non-optimal status: it returns a report in which every configuration's
statistics are exactly the aggregation of that configuration's
per-repetition backend times (the elapsed time flows into the statistics
whatever each status is), but the harness does not treat non-optimal
repetitions like ordinary samples: its breakpoint trace contains exactly
one `ipdb.set_trace()` event for every repetition whose status is
non-optimal — Gurobi status `≠ "optimal"` at lines 85-87, miosqp status
`≠ MI_SOLVED` at lines 117-118 — and no others. -/
theorem c1_nonoptimal_debug_break (gb : GBackend) (mq : MBackend)
    (n_vec m_vec p_vec : List Nat) (rep : Nat) (d : ℚ) (st : Nat → ℚ)
    (solver : String)
    (hm : m_vec.length = n_vec.length) (hp : p_vec.length = n_vec.length)
    (hrep : 1 ≤ rep)
    (hvalid : ∀ t, t < n_vec.length →
      n_vec.getD t 0 ≠ 0 ∧ p_vec.getD t 0 ≤ n_vec.getD t 0) :
    ∃ out : RunOut,
      solve gb mq (some n_vec.length) n_vec m_vec p_vec rep d st solver = .ok out
        ∧ (∀ i, i < n_vec.length →
            aggregate (cfgSamples solver gb mq (n_vec.getD i 0) (m_vec.getD i 0)
                (p_vec.getD i 0) rep d (stateAt n_vec m_vec p_vec rep d 0 ⟨st, 0⟩ i))
              = .ok (out.report.getD i defaultRow).t)
        ∧ out.events = (List.range n_vec.length).flatMap fun i =>
            cfgEvents solver gb mq i (n_vec.getD i 0) (m_vec.getD i 0) (p_vec.getD i 0)
              rep d (stateAt n_vec m_vec p_vec rep d 0 ⟨st, 0⟩ i) := by
  have hv : ∀ t, t < n_vec.length → cfgValid n_vec m_vec p_vec (0 + t) := by
    intro t ht
    simp only [Nat.zero_add]
    exact ⟨ht, by omega, by omega, (hvalid t ht).1, (hvalid t ht).2⟩
  obtain ⟨c, hc, hts, hstats, hevs⟩ := cfgLoop_char solver gb mq n_vec m_vec p_vec rep d
    hrep n_vec.length 0 ⟨st, 0⟩ hv
  refine ⟨⟨(List.range n_vec.length).map fun i =>
      { n := n_vec.getD i 0, m := m_vec.getD i 0, p := p_vec.getD i 0,
        t := c.ts.getD i zeroStats,
        osqp := if solver = "miosqp" then some (c.toss.getD i zeroStats) else none },
    c.evs⟩, ?_, ?_, ?_⟩
  · rw [solve_some_eq, hc]
    rw [bind_ok_eq,
      if_pos (⟨hm, hp⟩ : m_vec.length = n_vec.length ∧ p_vec.length = n_vec.length)]
  · intro i hi
    have hrow := getD_map_range n_vec.length (fun i =>
      ({ n := n_vec.getD i 0, m := m_vec.getD i 0, p := p_vec.getD i 0,
         t := c.ts.getD i zeroStats,
         osqp := if solver = "miosqp" then some (c.toss.getD i zeroStats)
                 else none } : Row)) i hi defaultRow
    show aggregate _ = .ok (((List.range n_vec.length).map _).getD i defaultRow).t
    rw [hrow]
    have := hstats i hi
    simpa using this
  · show c.evs = _
    rw [hevs]
    simp only [Nat.zero_add]

/-- Counterexample to C1 as stated: with a backend that terminates with the
well-formed non-optimal status `"infeasible"`, the run does not proceed like
any other sample — a debugger breakpoint event is recorded. -/
theorem c1_counterexample :
    ((solve (fun _ _ => ⟨"infeasible", 2⟩) (fun _ _ => ⟨MI_SOLVED, 1, 1⟩) (some 1)
        [1] [0] [0] 1 (6/10) (fun _ => 0) "gurobi").map RunOut.events
      = .ok [⟨0, 0⟩])
    ∧ ([⟨0, 0⟩] : List DebugEvent) ≠ [] := by
  constructor
  · rfl
  · decide

/-- Witness instantiating the amended C1 on a concrete sweep whose miosqp
backend reports a non-MI_SOLVED status. -/
theorem c1_witness :
    (([1] : List Nat).length = ([1] : List Nat).length
        ∧ ([1] : List Nat).length = ([1] : List Nat).length ∧ 1 ≤ 1
        ∧ ∀ t, t < ([1] : List Nat).length →
            ([1] : List Nat).getD t 0 ≠ 0
              ∧ ([1] : List Nat).getD t 0 ≤ ([1] : List Nat).getD t 0)
      ∧ ∃ out : RunOut,
          solve (fun _ _ => ⟨"optimal", 1⟩) (fun _ _ => ⟨0, 1, 1⟩)
              (some ([1] : List Nat).length) [1] [1] [1] 1 (6/10) (fun _ => 0) "miosqp"
            = .ok out
            ∧ (∀ i, i < ([1] : List Nat).length →
                aggregate (cfgSamples "miosqp" (fun _ _ => ⟨"optimal", 1⟩)
                    (fun _ _ => ⟨0, 1, 1⟩) (([1] : List Nat).getD i 0)
                    (([1] : List Nat).getD i 0) (([1] : List Nat).getD i 0) 1 (6/10)
                    (stateAt [1] [1] [1] 1 (6/10) 0 ⟨fun _ => 0, 0⟩ i))
                  = .ok (out.report.getD i defaultRow).t)
            ∧ out.events = (List.range ([1] : List Nat).length).flatMap fun i =>
                cfgEvents "miosqp" (fun _ _ => ⟨"optimal", 1⟩) (fun _ _ => ⟨0, 1, 1⟩) i
                  (([1] : List Nat).getD i 0) (([1] : List Nat).getD i 0)
                  (([1] : List Nat).getD i 0) 1 (6/10)
                  (stateAt [1] [1] [1] 1 (6/10) 0 ⟨fun _ => 0, 0⟩ i) := by
  refine ⟨⟨rfl, rfl, le_refl 1, by decide⟩, ?_⟩
  exact c1_nonoptimal_debug_break (fun _ _ => ⟨"optimal", 1⟩) (fun _ _ => ⟨0, 1, 1⟩)
    [1] [1] [1] 1 (6/10) (fun _ => 0) "miosqp" rfl rfl (le_refl 1) (by decide)

/-- C2 (amended): an unrecognized backend tag does not fail at all — the
harness runs the entire sweep without ever invoking a backend, every sample
slot keeps its `np.zeros` value, no debugger breakpoint fires, and a report
of all-zero statistics (with no secondary columns) is returned. -/
theorem c2_unknown_tag_completes (gb : GBackend) (mq : MBackend) (solver : String)
    (hs1 : solver ≠ "gurobi") (hs2 : solver ≠ "miosqp")
    (n_vec m_vec p_vec : List Nat) (rep : Nat) (d : ℚ) (st : Nat → ℚ)
    (hm : m_vec.length = n_vec.length) (hp : p_vec.length = n_vec.length)
    (hrep : 1 ≤ rep)
    (hvalid : ∀ t, t < n_vec.length →
      n_vec.getD t 0 ≠ 0 ∧ p_vec.getD t 0 ≤ n_vec.getD t 0) :
    ∃ out : RunOut,
      solve gb mq (some n_vec.length) n_vec m_vec p_vec rep d st solver = .ok out
        ∧ out.events = []
        ∧ out.report.length = n_vec.length
        ∧ ∀ i, i < n_vec.length →
            (out.report.getD i defaultRow).t = zeroStats
            ∧ (out.report.getD i defaultRow).osqp = none := by
  have hv : ∀ t, t < n_vec.length → cfgValid n_vec m_vec p_vec (0 + t) := by
    intro t ht
    simp only [Nat.zero_add]
    exact ⟨ht, by omega, by omega, (hvalid t ht).1, (hvalid t ht).2⟩
  obtain ⟨gend, hc⟩ := cfgLoop_unknown solver gb mq n_vec m_vec p_vec rep d hs1 hs2 hrep
    n_vec.length 0 ⟨st, 0⟩ hv
  refine ⟨⟨(List.range n_vec.length).map fun i =>
      { n := n_vec.getD i 0, m := m_vec.getD i 0, p := p_vec.getD i 0,
        t := (List.replicate n_vec.length zeroStats).getD i zeroStats,
        osqp := if solver = "miosqp"
                then some ((List.replicate n_vec.length zeroStats).getD i zeroStats)
                else none },
    []⟩, ?_, rfl, ?_, ?_⟩
  · rw [solve_some_eq, hc]
    rw [bind_ok_eq,
      if_pos (⟨hm, hp⟩ : m_vec.length = n_vec.length ∧ p_vec.length = n_vec.length)]
  · simp
  · intro i hi
    have hrow := getD_map_range n_vec.length (fun i =>
      ({ n := n_vec.getD i 0, m := m_vec.getD i 0, p := p_vec.getD i 0,
         t := (List.replicate n_vec.length zeroStats).getD i zeroStats,
         osqp := if solver = "miosqp"
                 then some ((List.replicate n_vec.length zeroStats).getD i zeroStats)
                 else none } : Row)) i hi defaultRow
    rw [hrow]
    constructor
    · show (List.replicate n_vec.length zeroStats).getD i zeroStats = zeroStats
      have hlen : i < (List.replicate n_vec.length zeroStats).length := by
        simpa using hi
      rw [List.getD_eq_getElem _ _ hlen]
      exact List.getElem_replicate ..
    · show (if solver = "miosqp" then _ else none) = none
      rw [if_neg hs2]

/-- Counterexample to C2 as stated: with the unrecognized tag `"cplex"` the
harness does not fail with any unsupported-backend error before solving —
it runs to completion and returns a one-row report with no debugger
events. -/
theorem c2_counterexample :
    (solve (fun _ _ => ⟨"optimal", 1⟩) (fun _ _ => ⟨MI_SOLVED, 1, 1⟩) (some 1)
        [1] [0] [0] 1 (6/10) (fun _ => 0) "cplex").map
        (fun o => (o.report.map (fun r => r.n), o.events))
      = .ok ([1], []) := rfl

/-- Witness instantiating the amended C2 on a concrete unrecognized tag. -/
theorem c2_witness :
    (("cplex" : String) ≠ "gurobi" ∧ ("cplex" : String) ≠ "miosqp"
        ∧ ([1] : List Nat).length = ([1] : List Nat).length
        ∧ ([1] : List Nat).length = ([1] : List Nat).length ∧ 1 ≤ 1
        ∧ ∀ t, t < ([1] : List Nat).length →
            ([1] : List Nat).getD t 0 ≠ 0
              ∧ ([1] : List Nat).getD t 0 ≤ ([1] : List Nat).getD t 0)
      ∧ ∃ out : RunOut,
          solve (fun _ _ => ⟨"optimal", 1⟩) (fun _ _ => ⟨MI_SOLVED, 1, 1⟩)
              (some ([1] : List Nat).length) [1] [1] [1] 1 (6/10) (fun _ => 0) "cplex"
            = .ok out
            ∧ out.events = []
            ∧ out.report.length = ([1] : List Nat).length
            ∧ ∀ i, i < ([1] : List Nat).length →
                (out.report.getD i defaultRow).t = zeroStats
                ∧ (out.report.getD i defaultRow).osqp = none := by
  refine ⟨⟨by decide, by decide, rfl, rfl, le_refl 1, by decide⟩, ?_⟩
  exact c2_unknown_tag_completes (fun _ _ => ⟨"optimal", 1⟩)
    (fun _ _ => ⟨MI_SOLVED, 1, 1⟩) "cplex" (by decide) (by decide)
    [1] [1] [1] 1 (6/10) (fun _ => 0) rfl rfl (le_refl 1) (by decide)

/-- C3: one run of the sweep is a pure function of the sweep parameters,
the backends, and the generator tape selected by the seed: two invocations
with the same seed (under any fixed seed-to-tape map, as numpy's seeding
is deterministic), the same parameters and the same deterministic backends
generate the identical sequence of problem instances and return identical
statistics. -/
theorem c3_seed_determinism (gb gb' : GBackend) (mq mq' : MBackend)
    (npr npr' : Option Nat) (nv nv' mv mv' pv pv' : List Nat)
    (rep rep' : Nat) (d d' : ℚ) (seedStream : Nat → Nat → ℚ) (seed seed' : Nat)
    (solver solver' : String)
    (hgb : gb = gb') (hmq : mq = mq') (hnpr : npr = npr') (hnv : nv = nv')
    (hmv : mv = mv') (hpv : pv = pv') (hrep : rep = rep') (hd : d = d')
    (hseed : seed = seed') (hsolver : solver = solver') :
    instanceTrace npr nv mv pv rep d (seedStream seed)
        = instanceTrace npr' nv' mv' pv' rep' d' (seedStream seed')
      ∧ solve gb mq npr nv mv pv rep d (seedStream seed) solver
        = solve gb' mq' npr' nv' mv' pv' rep' d' (seedStream seed') solver' := by
  subst hgb hmq hnpr hnv hmv hpv hrep hd hseed hsolver
  exact ⟨rfl, rfl⟩

/-- Witness instantiating C3: replaying seed 0 on a concrete sweep. -/
theorem c3_witness :
    ((fun _ _ => (⟨"optimal", 1⟩ : GResult) : GBackend)
          = (fun _ _ => (⟨"optimal", 1⟩ : GResult) : GBackend)
        ∧ (fun _ _ => (⟨MI_SOLVED, 1, 1⟩ : MResult) : MBackend)
          = (fun _ _ => (⟨MI_SOLVED, 1, 1⟩ : MResult) : MBackend)
        ∧ (some 1 : Option Nat) = some 1
        ∧ ([1] : List Nat) = [1] ∧ ([0] : List Nat) = [0] ∧ ([0] : List Nat) = [0]
        ∧ (1 : Nat) = 1 ∧ (6/10 : ℚ) = 6/10 ∧ (0 : Nat) = 0
        ∧ ("gurobi" : String) = "gurobi")
      ∧ instanceTrace (some 1) [1] [0] [0] 1 (6/10) ((fun _ _ => 0) 0)
          = instanceTrace (some 1) [1] [0] [0] 1 (6/10) ((fun _ _ => 0) 0)
      ∧ solve (fun _ _ => ⟨"optimal", 1⟩) (fun _ _ => ⟨MI_SOLVED, 1, 1⟩) (some 1)
            [1] [0] [0] 1 (6/10) ((fun _ _ => 0) 0) "gurobi"
          = solve (fun _ _ => ⟨"optimal", 1⟩) (fun _ _ => ⟨MI_SOLVED, 1, 1⟩) (some 1)
            [1] [0] [0] 1 (6/10) ((fun _ _ => 0) 0) "gurobi" := by
  refine ⟨⟨rfl, rfl, rfl, rfl, rfl, rfl, rfl, rfl, rfl, rfl⟩, ?_, ?_⟩
  · exact (c3_seed_determinism (fun _ _ => ⟨"optimal", 1⟩) (fun _ _ => ⟨"optimal", 1⟩)
      (fun _ _ => ⟨MI_SOLVED, 1, 1⟩) (fun _ _ => ⟨MI_SOLVED, 1, 1⟩)
      (some 1) (some 1) [1] [1] [0] [0] [0] [0] 1 1 (6/10) (6/10)
      (fun _ _ => 0) 0 0 "gurobi" "gurobi"
      rfl rfl rfl rfl rfl rfl rfl rfl rfl rfl).1
  · exact (c3_seed_determinism (fun _ _ => ⟨"optimal", 1⟩) (fun _ _ => ⟨"optimal", 1⟩)
      (fun _ _ => ⟨MI_SOLVED, 1, 1⟩) (fun _ _ => ⟨MI_SOLVED, 1, 1⟩)
      (some 1) (some 1) [1] [1] [0] [0] [0] [0] 1 1 (6/10) (6/10)
      (fun _ _ => 0) 0 0 "gurobi" "gurobi"
      rfl rfl rfl rfl rfl rfl rfl rfl rfl rfl).2
